import Mathlib

/-!
Verification of the go-couchdb request/transport layer, option encoding,
error model and design-document synchronization, as a shallow embedding
of the Go source (src/http.go, src/couchdb.go) into Lean.

Conventions of the embedding:
* Go `error` interface values that can flow through this library are either
  the typed `*Error` produced by `parseError` or some other error
  (transport failure, JSON decode failure, ...); we model them with the
  two-constructor type `GoErr`.
* The outcome of the external HTTP exchange (net/http `Client.Do`) is an
  input to the embedded functions: `Except String HttpResponse`.
* The outcome of the standard-library JSON decoder on a response body is
  likewise carried as data (an `Except` field/argument), since
  `encoding/json` is not code of this repository.
* Fallible Go code (and the one panicking slice expression) is modelled
  with `Except` / explicit outcome types; all definitions are total and
  executable.
-/

namespace CouchDB

instance {α β : Type} [DecidableEq α] [DecidableEq β] : DecidableEq (Except α β) := fun a b =>
  match a, b with
  | Except.ok x, Except.ok y =>
      if h : x = y then isTrue (by rw [h]) else isFalse (by intro hc; cases hc; exact h rfl)
  | Except.error x, Except.error y =>
      if h : x = y then isTrue (by rw [h]) else isFalse (by intro hc; cases hc; exact h rfl)
  | Except.ok _, Except.error _ => isFalse (by intro hc; cases hc)
  | Except.error _, Except.ok _ => isFalse (by intro hc; cases hc)

/-- The typed API-level error of the library (struct `Error` in src/http.go,
reported by CouchDB as a JSON object with error and reason fields). -/
structure Error where
  Method : String
  URL : String
  StatusCode : Nat
  ErrorCode : String
  Reason : String
deriving DecidableEq

/-- A Go `error` interface value as it occurs in this library: either the
typed `*Error` of the package, or any other error (transport-level,
decoding, ...) carrying only a message. -/
inductive GoErr where
  | couch (e : Error)
  | plain (msg : String)
deriving DecidableEq

/-- Model of an `*http.Response` paired with the request data the library
reads back from it.  `etag` is the value of the Etag header, empty when the
header is absent (mirroring `Header.Get`).  `bodyErrorReason` is the outcome
of JSON-decoding the response body into the anonymous
struct with Error and Reason fields used by `parseError` (the decoder is
external, so its outcome is data of the model). -/
structure HttpResponse where
  method : String
  url : String
  statusCode : Nat
  etag : String
  contentLength : Int
  bodyErrorReason : Except String (String × String)
deriving DecidableEq

/-- src/http.go `parseError`: builds the typed `Error` from a failed
response.  For non-HEAD requests the body is read and decoded; on decode
failure both fields receive the synthetic unknown marker.  The `Bool`
component records whether the response body was read (it is closed by
`readBody`); for HEAD requests no body is read. -/
def parseError (resp : HttpResponse) : Error × Bool :=
  if resp.method ≠ "HEAD" then
    match resp.bodyErrorReason with
    | Except.ok (e, r) =>
        (⟨resp.method, resp.url, resp.statusCode, e, r⟩, true)
    | Except.error msg =>
        let unknown := "unknown, couldn't decode CouchDB error: " ++ msg
        (⟨resp.method, resp.url, resp.statusCode, unknown, unknown⟩, true)
  else
    (⟨resp.method, resp.url, resp.statusCode, "", ""⟩, false)

/-- src/http.go `transport.request`, from the point where the HTTP exchange
has been attempted: a transport-level failure propagates unchanged; a
response with status code at least 400 is converted by `parseError` into the
typed error; any other response is returned as-is. -/
def request (doResult : Except String HttpResponse) : Except GoErr HttpResponse :=
  match doResult with
  | Except.error msg => Except.error (GoErr.plain msg)
  | Except.ok resp =>
      if resp.statusCode ≥ 400 then
        Except.error (GoErr.couch (parseError resp).1)
      else
        Except.ok resp

/-- src/http.go `ErrorStatus`: a type assertion to `*Error` followed by a
status-code comparison; false for any other error kind. -/
def ErrorStatus (err : GoErr) (statusCode : Nat) : Bool :=
  match err with
  | GoErr.couch dberr => dberr.StatusCode == statusCode
  | GoErr.plain _ => false

/-- src/http.go `NotFound`. -/
def NotFound (err : GoErr) : Bool := ErrorStatus err 404

/-- src/http.go `Unauthorized`. -/
def Unauthorized (err : GoErr) : Bool := ErrorStatus err 401

/-- src/http.go `Conflict`. -/
def Conflict (err : GoErr) : Bool := ErrorStatus err 409

/-- Go string slicing s[lo:hi] (on characters; all strings the library
slices are ASCII revision tokens, where byte and character indexing
coincide): `none` models the out-of-range panic. -/
def goSlice (s : String) (lo hi : Nat) : Option String :=
  if lo ≤ hi ∧ hi ≤ s.length then some ((s.drop lo).take (hi - lo)) else none

/-- Outcome of `responseRev`: a Go function returning (string, error) that
can also panic on a slice expression. -/
inductive RevOutcome where
  | panic
  | err (e : GoErr)
  | ok (rev : String)
deriving DecidableEq

/-- src/http.go `responseRev`: propagates an incoming error, fails with a
protocol error when the Etag header is absent, and otherwise evaluates the
Go slice expression etag[1 : len(etag)-1]. -/
def responseRev (arg : Except GoErr HttpResponse) : RevOutcome :=
  match arg with
  | Except.error e => RevOutcome.err e
  | Except.ok resp =>
      if resp.etag = "" then
        RevOutcome.err (GoErr.plain "couchdb: missing Etag header in response")
      else
        match goSlice resp.etag 1 (resp.etag.length - 1) with
        | some r => RevOutcome.ok r
        | none => RevOutcome.panic

/-! ## Option encoding (src/http.go: encopts, encval)

A Go `interface` value stored in an `Options` map is modelled by `GoValue`.
The scalar constructors are the kinds accepted by `encval`; `arr` models a
slice value (JSON-marshalable but rejected by `encval`) and `funcVal` models
a function value (rejected by both `encval` and the JSON marshaller).
Go maps iterate in unspecified order; an `Options` map is modelled as the
association list of its entries in iteration order. -/

inductive GoValue where
  | nil
  | str (s : String)
  | boolean (b : Bool)
  | int (i : Int)
  | uint (n : Nat)
  | arr (elems : List GoValue)
  | funcVal

/-- The Go reflect type string reported for unsupported values in error
messages. -/
def goTypeName : GoValue → String
  | GoValue.nil => "nil"
  | GoValue.str _ => "string"
  | GoValue.boolean _ => "bool"
  | GoValue.int _ => "int"
  | GoValue.uint _ => "uint"
  | GoValue.arr _ => "[]interface \x7b\x7d"
  | GoValue.funcVal => "func()"

def hexDigitChar (n : Nat) : Char :=
  match n with
  | 0 => '0' | 1 => '1' | 2 => '2' | 3 => '3' | 4 => '4'
  | 5 => '5' | 6 => '6' | 7 => '7' | 8 => '8' | 9 => '9'
  | 10 => 'A' | 11 => 'B' | 12 => 'C' | 13 => 'D' | 14 => 'E'
  | _ => 'F'

/-- UTF-8 encoding of a character as a list of byte values (net/url escapes
bytes, not characters). -/
def utf8Bytes (c : Char) : List Nat :=
  let n := c.toNat
  if n < 0x80 then [n]
  else if n < 0x800 then [0xC0 + n / 0x40, 0x80 + n % 0x40]
  else if n < 0x10000 then
    [0xE0 + n / 0x1000, 0x80 + n / 0x40 % 0x40, 0x80 + n % 0x40]
  else
    [0xF0 + n / 0x40000, 0x80 + n / 0x1000 % 0x40, 0x80 + n / 0x40 % 0x40,
     0x80 + n % 0x40]

/-- net/url QueryEscape on a single byte: alphanumerics and the four marks
dash, underscore, dot, tilde stay; a space becomes a plus; anything else
becomes a percent escape with uppercase hex. -/
def queryEscapeByte (b : Nat) : String :=
  if (0x41 ≤ b ∧ b ≤ 0x5A) ∨ (0x61 ≤ b ∧ b ≤ 0x7A) ∨ (0x30 ≤ b ∧ b ≤ 0x39)
      ∨ b = 0x2D ∨ b = 0x5F ∨ b = 0x2E ∨ b = 0x7E then
    String.singleton (Char.ofNat b)
  else if b = 0x20 then "+"
  else String.mk ['%', hexDigitChar (b / 16), hexDigitChar (b % 16)]

/-- net/url QueryEscape. -/
def queryEscape (s : String) : String :=
  String.join ((s.data.flatMap utf8Bytes).map queryEscapeByte)

/-- encoding/json escaping of one character inside a string literal (the
marshaller also HTML-escapes angle brackets and ampersands). -/
def jsonEscapeChar (c : Char) : String :=
  if c = '"' then "\\\""
  else if c = '\\' then "\\\\"
  else if c = '\n' then "\\n"
  else if c = '\r' then "\\r"
  else if c = '\t' then "\\t"
  else if c = '<' then "\\u003c"
  else if c = '>' then "\\u003e"
  else if c = '&' then "\\u0026"
  else String.singleton c

/-- encoding/json marshalling of a string value. -/
def jsonQuote (s : String) : String :=
  "\"" ++ String.join (s.data.map jsonEscapeChar) ++ "\""

mutual

/-- encoding/json Marshal on the modelled values: nil marshals to null,
scalars to their JSON literals, slices to arrays; a function value is not
marshalable. -/
def jsonMarshal : GoValue → Except String String
  | GoValue.nil => Except.ok "null"
  | GoValue.str s => Except.ok (jsonQuote s)
  | GoValue.boolean b => Except.ok (if b then "true" else "false")
  | GoValue.int i => Except.ok (toString i)
  | GoValue.uint n => Except.ok (toString n)
  | GoValue.arr vs =>
      match jsonMarshalList vs with
      | Except.ok es => Except.ok ("[" ++ String.intercalate "," es ++ "]")
      | Except.error e => Except.error e
  | GoValue.funcVal => Except.error "json: unsupported type: func()"

def jsonMarshalList : List GoValue → Except String (List String)
  | [] => Except.ok []
  | v :: vs =>
      match jsonMarshal v with
      | Except.error e => Except.error e
      | Except.ok s =>
          match jsonMarshalList vs with
          | Except.error e => Except.error e
          | Except.ok ss => Except.ok (s :: ss)

end

/-- src/http.go `encval`: scalar encoding of one option value.  A nil value
and any non-scalar kind are errors; strings are query-escaped, booleans and
integers take their canonical textual form.  (Go also accepts floats here;
float options never occur in the claims and floating point is outside the
embedding.) -/
def encval (v : GoValue) : Except String String :=
  match v with
  | GoValue.nil => Except.error "value is nil"
  | GoValue.str s => Except.ok (queryEscape s)
  | GoValue.boolean b => Except.ok (if b then "true" else "false")
  | GoValue.int i => Except.ok (toString i)
  | GoValue.uint n => Except.ok (toString n)
  | GoValue.arr _ => Except.error ("unsupported type: " ++ goTypeName v)
  | GoValue.funcVal => Except.error ("unsupported type: " ++ goTypeName v)

/-- The loop body of src/http.go `encopts`: iterates the option entries
writing key=value pairs into the buffer `acc`, separated by ampersands once
`amp` is set; a key listed in `jskeys` has its value JSON-marshalled and the
JSON text query-escaped, any other key goes through `encval`.  The first
failing entry aborts the whole encoding. -/
def encoptsLoop (jskeys : List String) :
    List (String × GoValue) → Bool → String → Except String String
  | [], _, acc => Except.ok acc
  | (k, v) :: rest, amp, acc =>
      let acc1 := if amp then acc ++ "&" else acc
      let acc2 := acc1 ++ queryEscape k ++ "="
      if jskeys.contains k then
        match jsonMarshal v with
        | Except.error e =>
            Except.error ("invalid option \"" ++ k ++ "\": " ++ e)
        | Except.ok jsonv =>
            encoptsLoop jskeys rest true (acc2 ++ queryEscape jsonv)
      else
        match encval v with
        | Except.error e =>
            Except.error ("invalid option \"" ++ k ++ "\": " ++ e)
        | Except.ok s => encoptsLoop jskeys rest true (acc2 ++ s)

/-- src/http.go `encopts`: writes a question mark and then every option
entry. -/
def encopts (opts : List (String × GoValue)) (jskeys : List String) :
    Except String String :=
  encoptsLoop jskeys opts false "?"

/-! ## Security objects (src/couchdb.go: Security) -/

/-- src/couchdb.go `Members`. -/
structure Members where
  Names : List String
  Roles : List String
deriving DecidableEq

/-- src/couchdb.go `Security`. -/
structure Security where
  Admins : Members
  SecMembers : Members
deriving DecidableEq

/-- The zero value of `Security`, as allocated by new(Security). -/
def emptySecurity : Security := ⟨⟨[], []⟩, ⟨[], []⟩⟩

/-- src/couchdb.go `ContextAwareDB.Security`: issues the GET through
`request`; a zero ContentLength means defaults, otherwise the body is
JSON-decoded into the security object.  `secDecode` is the outcome the
external JSON decoder would produce on the response body. -/
def securityCall (doResult : Except String HttpResponse)
    (secDecode : Except String Security) : Except GoErr Security :=
  match request doResult with
  | Except.error e => Except.error e
  | Except.ok resp =>
      if resp.contentLength = 0 then Except.ok emptySecurity
      else
        match secDecode with
        | Except.error m => Except.error (GoErr.plain m)
        | Except.ok secobj => Except.ok secobj

/-! ## Design document synchronization (src/couchdb.go: SyncDesign)

The `Design` type with its `ViewChecksum` method is declared outside the
files at hand (only its tests and `SyncDesign` refer to it), so the data
type and the checksum are modelled from the spec; `SyncDesign` itself is
translated from src/couchdb.go. -/

/-- Modelled from the spec: a design document is an identifier, a revision
and named view definitions, each a map function and an optional reduce
function (absent modelled as the empty string).  A locally constructed
design starts with an empty revision. -/
structure Design where
  id : String
  rev : String
  views : List (String × String × String)
deriving DecidableEq

/-- The zero value of `Design`, as allocated by new(Design). -/
def emptyDesign : Design := ⟨"", "", []⟩

/-- Modelled from the spec: the content checksum of a design document, a
stable digest of the view definitions used purely for change detection and
never persisted; modelled as a canonical serialization of the view list,
which is exactly as discriminating as a collision-free hash. -/
def ViewChecksum (d : Design) : String :=
  String.intercalate "|" (d.views.map fun v => v.1 ++ ":" ++ v.2.1 ++ ":" ++ v.2.2)

/-- Outcome of the remote fetch performed by SyncDesign through db.Get: the
decoded previous design, or a Go error (a typed 404 when the document is
absent, any other error otherwise). -/
inductive RemoteGet where
  | ok (prev : Design)
  | fail (e : GoErr)

/-- Outcome of the single PUT SyncDesign may issue through db.Put. -/
inductive RemotePut where
  | ok (newRev : String)
  | fail (e : GoErr)

/-- The observable result of a SyncDesign call: the final state of the
local design object, the returned error (none on success), and the list of
PUT requests issued, each recorded as the expected-revision precondition
together with the document sent. -/
structure SyncResult where
  finalD : Design
  err : Option GoErr
  puts : List (String × Design)
deriving DecidableEq

/-- The tail of src/couchdb.go `SyncDesign` once `prev` holds the fetched
remote design (or the zero value after a 404): when the remote revision is
non-empty and the checksums agree, adopt the remote revision and stop
without writing; otherwise clear the local revision and PUT the document
with the remote revision as precondition, adopting the server revision on
success. -/
def syncAfterGet (prev : Design) (p : RemotePut) (d : Design) : SyncResult :=
  if prev.rev ≠ "" ∧ ViewChecksum d = ViewChecksum prev then
    { finalD := { d with rev := prev.rev }, err := none, puts := [] }
  else
    let d1 := { d with rev := "" }
    match p with
    | RemotePut.ok newRev =>
        { finalD := { d1 with rev := newRev }, err := none,
          puts := [(prev.rev, d1)] }
    | RemotePut.fail e =>
        { finalD := d1, err := some e, puts := [(prev.rev, d1)] }

/-- src/couchdb.go `ContextAwareDB.SyncDesign`: fetch the previous design;
a non-404 fetch error aborts with the local design untouched; a 404 leaves
`prev` at its zero value; then proceed as in `syncAfterGet`. -/
def SyncDesign (g : RemoteGet) (p : RemotePut) (d : Design) : SyncResult :=
  match g with
  | RemoteGet.fail e =>
      if ¬ (NotFound e = true) then { finalD := d, err := some e, puts := [] }
      else syncAfterGet emptyDesign p d
  | RemoteGet.ok prev => syncAfterGet prev p d

/-! ## Sample data used by witnesses -/

def sampleResp404 : HttpResponse :=
  ⟨"GET", "http://h:5984/db/x", 404, "", 42, Except.ok ("not_found", "missing")⟩

def sampleResp200 : HttpResponse :=
  ⟨"GET", "http://h:5984/db/x", 200, "", 42, Except.ok ("", "")⟩

def sampleRespBadBody : HttpResponse :=
  ⟨"PUT", "http://h:5984/db/x", 500, "", 42, Except.error "unexpected end of JSON input"⟩

def sampleRespHead : HttpResponse :=
  ⟨"HEAD", "http://h:5984/db/x", 404, "", 0, Except.error "unexpected end of JSON input"⟩

def sampleSecResp : HttpResponse :=
  ⟨"GET", "http://h:5984/db/_security", 200, "", 0, Except.ok ("", "")⟩

def sampleEtagResp : HttpResponse :=
  ⟨"PUT", "http://h:5984/db/x", 201, "\"2-abc\"", 0, Except.ok ("", "")⟩

def oneCharEtagResp : HttpResponse :=
  ⟨"PUT", "http://h:5984/db/x", 201, "x", 0, Except.ok ("", "")⟩

def sampleDesign : Design :=
  ⟨"_design/test", "", [("by_created_at", "function(d) ...", "_sum")]⟩

def sampleRemote : Design :=
  ⟨"_design/test", "1-619db7", [("by_created_at", "function(d) ...", "_sum")]⟩

def sampleRemoteOther : Design :=
  ⟨"_design/test", "1-619db7", [("by_created_at", "function(x) ...", "")]⟩

def err404 : GoErr := GoErr.couch ⟨"GET", "http://h:5984/db/x", 404, "not_found", "missing"⟩

def err401 : GoErr := GoErr.couch ⟨"GET", "http://h:5984/db/x", 401, "unauthorized", "nope"⟩

/-! ## Claims -/

/-- C1: for every HTTP exchange performed by transport.request that
succeeds with a response, a status code of at least 400 makes the call
return the typed Server Error built by parseError and no response, and a
status code below 400 makes it return the response itself (hence never a
Server Error). -/
theorem C1_request_classification (resp : HttpResponse) :
    (400 ≤ resp.statusCode →
      request (Except.ok resp) = Except.error (GoErr.couch (parseError resp).1)) ∧
    (resp.statusCode < 400 → request (Except.ok resp) = Except.ok resp) := by
  refine ⟨fun h => ?_, fun h => ?_⟩
  · simp only [request, ge_iff_le, if_pos h]
  · simp only [request, ge_iff_le, if_neg (Nat.not_le.mpr h)]

theorem C1_request_classification_witness :
    request (Except.ok sampleResp404) =
      Except.error (GoErr.couch (parseError sampleResp404).1) ∧
    request (Except.ok sampleResp200) = Except.ok sampleResp200 :=
  ⟨(C1_request_classification sampleResp404).1 (by decide),
   (C1_request_classification sampleResp200).2 (by decide)⟩

/-- C6: the NotFound, Unauthorized and Conflict predicates hold exactly for
the typed Server Error with status code 404, 401 and 409 respectively, and
are false on every other error value, in particular on plain transport
errors. -/
theorem C6_predicates (e : GoErr) :
    (NotFound e = true ↔ ∃ ce, e = GoErr.couch ce ∧ ce.StatusCode = 404) ∧
    (Unauthorized e = true ↔ ∃ ce, e = GoErr.couch ce ∧ ce.StatusCode = 401) ∧
    (Conflict e = true ↔ ∃ ce, e = GoErr.couch ce ∧ ce.StatusCode = 409) := by
  cases e with
  | couch ce =>
      simp [NotFound, Unauthorized, Conflict, ErrorStatus]
  | plain m =>
      simp [NotFound, Unauthorized, Conflict, ErrorStatus]

theorem C6_predicates_witness :
    NotFound err404 = true ∧ NotFound (GoErr.plain "connection refused") = false := by
  constructor
  · exact (C6_predicates err404).1.mpr ⟨_, rfl, rfl⟩
  · have h := (C6_predicates (GoErr.plain "connection refused")).1
    have hne : ¬ (NotFound (GoErr.plain "connection refused") = true) := by
      intro ht
      rcases h.mp ht with ⟨ce, hc, _⟩
      cases hc
    simpa using hne

/-- C7: every Server Error built by parseError carries the originating
method, full URL and status code; for a non-HEAD request whose body fails
to decode, both the error-code and reason fields equal the synthetic
unknown-decode marker embedding the failure message; for a HEAD request
both fields are empty and the body is not read. -/
theorem C7_parseError_fields (resp : HttpResponse) :
    ((parseError resp).1.Method = resp.method ∧
     (parseError resp).1.URL = resp.url ∧
     (parseError resp).1.StatusCode = resp.statusCode) ∧
    (∀ msg, resp.method ≠ "HEAD" → resp.bodyErrorReason = Except.error msg →
      (parseError resp).1.ErrorCode =
          "unknown, couldn\x27t decode CouchDB error: " ++ msg ∧
      (parseError resp).1.Reason =
          "unknown, couldn\x27t decode CouchDB error: " ++ msg) ∧
    (resp.method = "HEAD" →
      (parseError resp).1.ErrorCode = "" ∧ (parseError resp).1.Reason = "" ∧
      (parseError resp).2 = false) := by
  refine ⟨?_, fun msg hm hb => ?_, fun hm => ?_⟩
  · unfold parseError
    by_cases hm : resp.method = "HEAD"
    · simp [hm]
    · cases hb : resp.bodyErrorReason with
      | ok pr => cases pr; simp [hm, hb]
      | error m => simp [hm, hb]
  · unfold parseError
    simp [hm, hb]
  · unfold parseError
    simp [hm]

theorem C7_parseError_fields_witness :
    ((parseError sampleRespBadBody).1.ErrorCode =
        "unknown, couldn\x27t decode CouchDB error: unexpected end of JSON input" ∧
     (parseError sampleRespBadBody).1.Reason =
        "unknown, couldn\x27t decode CouchDB error: unexpected end of JSON input") ∧
    ((parseError sampleRespHead).1.ErrorCode = "" ∧
     (parseError sampleRespHead).1.Reason = "" ∧
     (parseError sampleRespHead).2 = false) :=
  ⟨(C7_parseError_fields sampleRespBadBody).2.1 _ (by decide) (by decide),
   (C7_parseError_fields sampleRespHead).2.2 (by decide)⟩

/-- C9: a successful (status below 400) response to the security fetch with
a zero-length body makes Security return the default security object with
all member lists empty and no error, regardless of what the JSON decoder
would have said. -/
theorem C9_security_empty_body (resp : HttpResponse) (sd : Except String Security)
    (hlt : resp.statusCode < 400) (hcl : resp.contentLength = 0) :
    securityCall (Except.ok resp) sd = Except.ok emptySecurity := by
  unfold securityCall request
  simp [ge_iff_le, if_neg (Nat.not_le.mpr hlt), hcl]

theorem C9_security_empty_body_witness :
    securityCall (Except.ok sampleSecResp)
      (Except.error "unexpected end of JSON input") = Except.ok emptySecurity :=
  C9_security_empty_body sampleSecResp _ (by decide) (by decide)

/-- C10 counterexample: the claim asserts responseRev never panics for any
non-empty header value, including values shorter than two characters; on a
one-character Etag value the slice expression etag[1 : len(etag)-1] has
bounds 1 and 0 and panics. -/
theorem C10_responseRev_counterexample :
    responseRev (Except.ok oneCharEtagResp) = RevOutcome.panic := by decide

/-- C10 (amended): revision extraction propagates an incoming error,
returns a protocol error when the Etag header is absent, and for every
header value of length at least two (every quoted value in particular)
returns the value with its first and last characters stripped, without
panicking; a one-character header value panics. -/
theorem C10_responseRev_amended (resp : HttpResponse) (e : GoErr) :
    (responseRev (Except.error e) = RevOutcome.err e) ∧
    (resp.etag = "" →
      responseRev (Except.ok resp) =
        RevOutcome.err (GoErr.plain "couchdb: missing Etag header in response")) ∧
    (2 ≤ resp.etag.length →
      responseRev (Except.ok resp) =
        RevOutcome.ok ((resp.etag.drop 1).take (resp.etag.length - 2))) ∧
    (resp.etag.length = 1 → responseRev (Except.ok resp) = RevOutcome.panic) := by
  refine ⟨rfl, fun he => ?_, fun hlen => ?_, fun hlen => ?_⟩
  · simp only [responseRev, if_pos he]
  · have hne : resp.etag ≠ "" := by
      intro he
      rw [he] at hlen
      simp at hlen
    have hb : 1 ≤ resp.etag.length - 1 ∧ resp.etag.length - 1 ≤ resp.etag.length :=
      ⟨Nat.le_sub_one_of_lt hlen, Nat.sub_le _ _⟩
    simp only [responseRev, if_neg hne, goSlice, if_pos hb]
    have : resp.etag.length - 1 - 1 = resp.etag.length - 2 := by omega
    rw [this]
  · have hne : resp.etag ≠ "" := by
      intro he
      rw [he] at hlen
      simp at hlen
    have hb : ¬ (1 ≤ resp.etag.length - 1 ∧ resp.etag.length - 1 ≤ resp.etag.length) := by
      rw [hlen]
      simp
    simp only [responseRev, if_neg hne, goSlice, if_neg hb]

theorem C10_responseRev_amended_witness :
    responseRev (Except.ok sampleEtagResp) = RevOutcome.ok "2-abc" := by
  have h := (C10_responseRev_amended sampleEtagResp (GoErr.plain "x")).2.2.1 (by decide)
  simpa using h

theorem SyncDesign_fail_step (e : GoErr) (p : RemotePut) (d : Design) :
    SyncDesign (RemoteGet.fail e) p d =
      if ¬ (NotFound e = true) then { finalD := d, err := some e, puts := [] }
      else syncAfterGet emptyDesign p d := rfl

theorem SyncDesign_ok_step (prev : Design) (p : RemotePut) (d : Design) :
    SyncDesign (RemoteGet.ok prev) p d = syncAfterGet prev p d := rfl

theorem syncAfterGet_put (prev : Design) (p : RemotePut) (d : Design)
    (hcase : ¬ (prev.rev ≠ "" ∧ ViewChecksum d = ViewChecksum prev)) :
    syncAfterGet prev p d =
      match p with
      | RemotePut.ok newRev =>
          { finalD := { d with rev := newRev }, err := none,
            puts := [(prev.rev, { d with rev := "" })] }
      | RemotePut.fail e =>
          { finalD := { d with rev := "" }, err := some e,
            puts := [(prev.rev, { d with rev := "" })] } := by
  unfold syncAfterGet
  rw [if_neg hcase]

/-- C2: when the remote fetch returns a design document with a non-empty
revision whose view checksum equals the local checksum, SyncDesign issues
no PUT, adopts the remote revision onto the local design and returns
success. -/
theorem C2_sync_noop (d prev : Design) (p : RemotePut)
    (hrev : prev.rev ≠ "") (hsum : ViewChecksum d = ViewChecksum prev) :
    SyncDesign (RemoteGet.ok prev) p d =
      { finalD := { d with rev := prev.rev }, err := none, puts := [] } := by
  rw [SyncDesign_ok_step]
  unfold syncAfterGet
  rw [if_pos ⟨hrev, hsum⟩]

theorem C2_sync_noop_witness :
    SyncDesign (RemoteGet.ok sampleRemote) (RemotePut.ok "9-zzz") sampleDesign =
      { finalD := { sampleDesign with rev := sampleRemote.rev }, err := none,
        puts := [] } :=
  C2_sync_noop sampleDesign sampleRemote _ (by decide) (by decide)

/-- C3: when the remote fetch reports not-found, or the fetched design has
a view checksum different from the local one, SyncDesign issues exactly one
PUT whose document is the local design with its revision cleared and whose
expected-revision precondition is the fetched remote revision (empty in the
not-found case), and when that PUT succeeds the local design ends up with
the server-returned revision and the call succeeds. -/
theorem C3_sync_write (d prev : Design) (p : RemotePut) (e : GoErr) :
    (NotFound e = true →
      (SyncDesign (RemoteGet.fail e) p d).puts = [("", { d with rev := "" })] ∧
      (∀ r, p = RemotePut.ok r →
        SyncDesign (RemoteGet.fail e) p d =
          { finalD := { d with rev := r }, err := none,
            puts := [("", { d with rev := "" })] })) ∧
    (ViewChecksum d ≠ ViewChecksum prev →
      (SyncDesign (RemoteGet.ok prev) p d).puts =
        [(prev.rev, { d with rev := "" })] ∧
      (∀ r, p = RemotePut.ok r →
        SyncDesign (RemoteGet.ok prev) p d =
          { finalD := { d with rev := r }, err := none,
            puts := [(prev.rev, { d with rev := "" })] })) := by
  constructor
  · intro hnf
    have hcase : ¬ (emptyDesign.rev ≠ "" ∧ ViewChecksum d = ViewChecksum emptyDesign) := by
      intro hc
      exact hc.1 rfl
    rw [SyncDesign_fail_step, if_neg (by simp [hnf]), syncAfterGet_put _ _ _ hcase]
    cases p with
    | ok r => exact ⟨rfl, fun r0 hr0 => by cases hr0; rfl⟩
    | fail pe =>
        refine ⟨rfl, fun r0 hr0 => ?_⟩
        cases hr0
  · intro hsum
    have hcase : ¬ (prev.rev ≠ "" ∧ ViewChecksum d = ViewChecksum prev) := by
      intro hc
      exact hsum hc.2
    rw [SyncDesign_ok_step, syncAfterGet_put _ _ _ hcase]
    cases p with
    | ok r => exact ⟨rfl, fun r0 hr0 => by cases hr0; rfl⟩
    | fail pe =>
        refine ⟨rfl, fun r0 hr0 => ?_⟩
        cases hr0

theorem C3_sync_write_witness :
    SyncDesign (RemoteGet.fail err404) (RemotePut.ok "1-new") sampleDesign =
      { finalD := { sampleDesign with rev := "1-new" }, err := none,
        puts := [("", { sampleDesign with rev := "" })] } :=
  ((C3_sync_write sampleDesign sampleRemote (RemotePut.ok "1-new") err404).1
    (by decide)).2 "1-new" rfl

/-- C8: a fetch failure other than not-found is surfaced with the local
design left entirely unchanged; a PUT failure (after a not-found fetch or a
checksum mismatch) is surfaced with the local design revision left
cleared. -/
theorem C8_sync_errors (d prev : Design) (p : RemotePut) (e pe : GoErr) :
    (NotFound e = false →
      SyncDesign (RemoteGet.fail e) p d =
        { finalD := d, err := some e, puts := [] }) ∧
    (NotFound e = true →
      SyncDesign (RemoteGet.fail e) (RemotePut.fail pe) d =
        { finalD := { d with rev := "" }, err := some pe,
          puts := [("", { d with rev := "" })] }) ∧
    (¬ (prev.rev ≠ "" ∧ ViewChecksum d = ViewChecksum prev) →
      SyncDesign (RemoteGet.ok prev) (RemotePut.fail pe) d =
        { finalD := { d with rev := "" }, err := some pe,
          puts := [(prev.rev, { d with rev := "" })] }) := by
  refine ⟨fun hnf => ?_, fun hnf => ?_, fun hcase => ?_⟩
  · rw [SyncDesign_fail_step, if_pos (by simp [hnf])]
  · have hcase : ¬ (emptyDesign.rev ≠ "" ∧ ViewChecksum d = ViewChecksum emptyDesign) := by
      intro hc
      exact hc.1 rfl
    rw [SyncDesign_fail_step, if_neg (by simp [hnf]), syncAfterGet_put _ _ _ hcase]
    rfl
  · rw [SyncDesign_ok_step, syncAfterGet_put _ _ _ hcase]

theorem C8_sync_errors_witness :
    SyncDesign (RemoteGet.fail err401) (RemotePut.ok "1-new") sampleDesign =
      { finalD := sampleDesign, err := some err401, puts := [] } ∧
    SyncDesign (RemoteGet.ok sampleRemoteOther)
        (RemotePut.fail (GoErr.couch ⟨"PUT", "u", 409, "conflict", "conflict"⟩))
        sampleDesign =
      { finalD := { sampleDesign with rev := "" },
        err := some (GoErr.couch ⟨"PUT", "u", 409, "conflict", "conflict"⟩),
        puts := [(sampleRemoteOther.rev, { sampleDesign with rev := "" })] } :=
  ⟨(C8_sync_errors sampleDesign sampleRemote (RemotePut.ok "1-new") err401
      (GoErr.plain "x")).1 (by decide),
   (C8_sync_errors sampleDesign sampleRemoteOther (RemotePut.ok "1-new") err401
      (GoErr.couch ⟨"PUT", "u", 409, "conflict", "conflict"⟩)).2.2 (by decide)⟩

/-! ## Option-encoder lemmas -/

theorem encoptsLoop_nil (jskeys : List String) (amp : Bool) (acc : String) :
    encoptsLoop jskeys [] amp acc = Except.ok acc := rfl

theorem encoptsLoop_cons (jskeys : List String) (k : String) (v : GoValue)
    (rest : List (String × GoValue)) (amp : Bool) (acc : String) :
    encoptsLoop jskeys ((k, v) :: rest) amp acc =
      (if jskeys.contains k then
        match jsonMarshal v with
        | Except.error e => Except.error ("invalid option \"" ++ k ++ "\": " ++ e)
        | Except.ok jsonv =>
            encoptsLoop jskeys rest true
              (((if amp then acc ++ "&" else acc) ++ queryEscape k ++ "=") ++
                queryEscape jsonv)
      else
        match encval v with
        | Except.error e => Except.error ("invalid option \"" ++ k ++ "\": " ++ e)
        | Except.ok s =>
            encoptsLoop jskeys rest true
              (((if amp then acc ++ "&" else acc) ++ queryEscape k ++ "=") ++ s)) := rfl

/-- When the whole encoding succeeds, every entry whose key is not a JSON
key must have passed scalar encoding. -/
theorem encoptsLoop_ok_sound (jskeys : List String) :
    ∀ (l : List (String × GoValue)) (amp : Bool) (acc s : String),
      encoptsLoop jskeys l amp acc = Except.ok s →
      ∀ k v, (k, v) ∈ l → jskeys.contains k = false →
        ∃ es, encval v = Except.ok es := by
  intro l
  induction l with
  | nil =>
      intro amp acc s h k v hmem hnj
      cases hmem
  | cons head rest ih =>
      intro amp acc s h k v hmem hnj
      obtain ⟨k0, v0⟩ := head
      rw [encoptsLoop_cons] at h
      by_cases hj : jskeys.contains k0 = true
      · rw [if_pos hj] at h
        cases hjm : jsonMarshal v0 with
        | error e0 =>
            rw [hjm] at h
            cases h
        | ok s0 =>
            rw [hjm] at h
            cases hmem with
            | head =>
                rw [hnj] at hj
                cases hj
            | tail _ hm =>
                exact ih true _ s h k v hm hnj
      · rw [if_neg hj] at h
        cases hev : encval v0 with
        | error e0 =>
            rw [hev] at h
            cases h
        | ok e0 =>
            rw [hev] at h
            cases hmem with
            | head => exact ⟨e0, hev⟩
            | tail _ hm =>
                exact ih true _ s h k v hm hnj

/-- The loop only ever appends to its accumulator. -/
theorem encoptsLoop_ok_extend (jskeys : List String) :
    ∀ (l : List (String × GoValue)) (amp : Bool) (acc s : String),
      encoptsLoop jskeys l amp acc = Except.ok s → ∃ t, acc ++ t = s := by
  intro l
  induction l with
  | nil =>
      intro amp acc s h
      rw [encoptsLoop_nil] at h
      cases h
      exact ⟨"", String.append_empty acc⟩
  | cons head rest ih =>
      intro amp acc s h
      obtain ⟨k0, v0⟩ := head
      rw [encoptsLoop_cons] at h
      have step : ∀ u : String,
          encoptsLoop jskeys rest true
            (((if amp then acc ++ "&" else acc) ++ queryEscape k0 ++ "=") ++ u)
            = Except.ok s → ∃ t, acc ++ t = s := by
        intro u hu
        obtain ⟨t, ht⟩ := ih true _ s hu
        cases amp with
        | true =>
            refine ⟨"&" ++ (queryEscape k0 ++ ("=" ++ (u ++ t))), ?_⟩
            rw [← ht, if_pos rfl]
            simp only [String.append_assoc]
        | false =>
            refine ⟨queryEscape k0 ++ ("=" ++ (u ++ t)), ?_⟩
            rw [← ht, if_neg Bool.false_ne_true]
            simp only [String.append_assoc]
      by_cases hj : jskeys.contains k0 = true
      · rw [if_pos hj] at h
        cases hjm : jsonMarshal v0 with
        | error e0 =>
            rw [hjm] at h
            cases h
        | ok s0 =>
            rw [hjm] at h
            exact step (queryEscape s0) h
      · rw [if_neg hj] at h
        cases hev : encval v0 with
        | error e0 =>
            rw [hev] at h
            cases h
        | ok e0 =>
            rw [hev] at h
            exact step e0 h

/-- The statement-level containment predicate: `needle` occurs contiguously
inside `hay`. -/
def StrContains (needle hay : String) : Prop := ∃ l r, l ++ needle ++ r = hay

/-- Every JSON-keyed entry of a successfully encoded option list appears in
the output as key=percent-escaped JSON text. -/
theorem encoptsLoop_json_member (jskeys : List String) :
    ∀ (l : List (String × GoValue)) (amp : Bool) (acc s : String) (k : String)
      (v : GoValue), (k, v) ∈ l → jskeys.contains k = true →
      encoptsLoop jskeys l amp acc = Except.ok s →
      ∃ j, jsonMarshal v = Except.ok j ∧
        StrContains (queryEscape k ++ "=" ++ queryEscape j) s := by
  intro l
  induction l with
  | nil =>
      intro amp acc s k v hmem hj h
      cases hmem
  | cons head rest ih =>
      intro amp acc s k v hmem hj h
      obtain ⟨k0, v0⟩ := head
      rw [encoptsLoop_cons] at h
      cases hmem with
      | head =>
          rw [if_pos hj] at h
          cases hjm : jsonMarshal v with
          | error e0 =>
              rw [hjm] at h
              cases h
          | ok j =>
              rw [hjm] at h
              obtain ⟨t, ht⟩ := encoptsLoop_ok_extend jskeys rest true _ s h
              refine ⟨j, rfl, if amp then acc ++ "&" else acc, t, ?_⟩
              rw [← ht]
              simp only [String.append_assoc]
      | tail _ hm =>
          by_cases hj0 : jskeys.contains k0 = true
          · rw [if_pos hj0] at h
            cases hjm : jsonMarshal v0 with
            | error e0 =>
                rw [hjm] at h
                cases h
            | ok s0 =>
                rw [hjm] at h
                exact ih true _ s k v hm hj h
          · rw [if_neg hj0] at h
            cases hev : encval v0 with
            | error e0 =>
                rw [hev] at h
                cases h
            | ok e0 =>
                rw [hev] at h
                exact ih true _ s k v hm hj h

/-- C4 counterexample: the claim demands an encoding error for a nil value
under ANY jsonKeys set, but when the key is itself a member of jsonKeys the
value goes through the JSON marshaller, which renders nil as null, and the
encoding succeeds. -/
theorem C4_encode_errors_counterexample :
    encopts [("startkey", GoValue.nil)] ["startkey"] = Except.ok "?startkey=null" ∧
    ∀ msg, encopts [("startkey", GoValue.nil)] ["startkey"] ≠ Except.error msg := by
  refine ⟨rfl, fun msg h => ?_⟩
  rw [show encopts [("startkey", GoValue.nil)] ["startkey"]
        = Except.ok "?startkey=null" from rfl] at h
  cases h

/-- C4 (amended): for every option mapping in which some key that is not a
member of jsonKeys maps to a nil value or to a value of a type other than
string/bool/integer/float (exactly the values rejected by encval),
query-string encoding returns an encoding error; being a total Lean
function, the model also shows the code path involves no panic.  (A key
that is a member of jsonKeys is JSON-marshalled instead; in particular nil
under such a key encodes successfully as null.) -/
theorem C4_encode_errors_amended (opts : List (String × GoValue))
    (jskeys : List String) (k : String) (v : GoValue) (m : String)
    (hmem : (k, v) ∈ opts) (hnj : jskeys.contains k = false)
    (hbad : encval v = Except.error m) :
    ∃ msg, encopts opts jskeys = Except.error msg := by
  cases hres : encopts opts jskeys with
  | error msg => exact ⟨msg, rfl⟩
  | ok s =>
      obtain ⟨es, hes⟩ := encoptsLoop_ok_sound jskeys opts false "?" s hres k v hmem hnj
      rw [hbad] at hes
      cases hes

theorem C4_encode_errors_amended_witness :
    ∃ msg, encopts [("limit", GoValue.int 5), ("batch", GoValue.nil)] ["startkey"]
      = Except.error msg :=
  C4_encode_errors_amended _ _ "batch" GoValue.nil "value is nil"
    (List.mem_cons_of_mem _ (List.mem_cons_self _ _)) (by decide) rfl

/-- C5: for every option mapping and every key belonging to the designated
jsonKeys list, a successful encoding contains that key with its value
rendered as JSON text and percent-escaped as a single query value; in
particular startkey with the list of the strings a and b encodes to
startkey=%5B%22a%22%2C%22b%22%5D (witness). -/
theorem C5_json_keys (opts : List (String × GoValue)) (jskeys : List String)
    (k : String) (v : GoValue) (s : String)
    (hmem : (k, v) ∈ opts) (hj : jskeys.contains k = true)
    (hok : encopts opts jskeys = Except.ok s) :
    ∃ j, jsonMarshal v = Except.ok j ∧
      StrContains (queryEscape k ++ "=" ++ queryEscape j) s :=
  encoptsLoop_json_member jskeys opts false "?" s k v hmem hj hok

theorem C5_json_keys_witness :
    encopts [("startkey", GoValue.arr [GoValue.str "a", GoValue.str "b"])] ["startkey"]
      = Except.ok "?startkey=%5B%22a%22%2C%22b%22%5D" ∧
    ∃ j, jsonMarshal (GoValue.arr [GoValue.str "a", GoValue.str "b"]) = Except.ok j ∧
      StrContains (queryEscape "startkey" ++ "=" ++ queryEscape j)
        "?startkey=%5B%22a%22%2C%22b%22%5D" :=
  ⟨rfl,
   C5_json_keys [("startkey", GoValue.arr [GoValue.str "a", GoValue.str "b"])]
     ["startkey"] "startkey" (GoValue.arr [GoValue.str "a", GoValue.str "b"])
     "?startkey=%5B%22a%22%2C%22b%22%5D"
     (List.mem_cons_self _ _) (by decide) rfl⟩

end CouchDB
